import Mathlib

/-!
Shallow embedding of `src/timely/src/dataflow/channels/pact.rs`:
parallelization contracts (`Pipeline`, `ExchangeCore`) and the logging
decorators (`LogPusher`, `LogPuller`) around send/receive endpoints.

Endpoints are modelled by their observable interaction: a wrapped pusher is
the trace of slots forwarded to it (most recent last), a wrapped puller is
the queue of slots it will hand out.  Machine integers (`usize`, `u64`) are
modelled as `Nat`; overflow is immaterial here because the code only
increments a counter and reduces hashes modulo the worker count.
-/

namespace Timely

/-- The `Container` trait: this layer uses record containers only through
their record count (`len`). -/
class Container (C : Type) where
  len : C → Nat

instance {D : Type} : Container (List D) where
  len := List.length

/-- A logger handle (`TimelyLogger`); only its presence or absence matters
here, the emitted events are returned explicitly. -/
abbrev TimelyLogger := Unit

/-- The message envelope `Message<T, C>`: logical timestamp `time`, record
container `data`, sequence number `seq`, and source worker `from`. -/
structure Message (T C : Type) where
  time : T
  data : C
  seq : Nat
  «from» : Nat
  deriving DecidableEq

/-- The structured trace event `MessagesEvent` emitted by the decorators. -/
structure MessagesEvent where
  is_send : Bool
  channel : Nat
  source : Nat
  target : Nat
  seq_no : Nat
  length : Nat
  deriving DecidableEq

/-- State of the `LogPusher<T, C, P>` decorator.  The wrapped endpoint
`pusher` is modelled by the trace of slots forwarded to it. -/
structure LogPusher (T C : Type) where
  pusher : List (Option (Message T C))
  channel : Nat
  counter : Nat
  source : Nat
  target : Nat
  logging : Option TimelyLogger
  deriving DecidableEq

/-- `LogPusher::new` (pact.rs:119-129): wraps a raw pusher with
`counter = 0` and the given channel, source, target and logger. -/
def LogPusher.new (pusher : List (Option (Message T C))) (source target channel : Nat)
    (logging : Option TimelyLogger) : LogPusher T C :=
  { pusher := pusher
    channel := channel
    counter := 0
    source := source
    target := target
    logging := logging }

/-- `LogPusher::push` (pact.rs:132-157).  If the slot holds a message the
counter is incremented, the message's `seq` and `from` are stamped, and an
event is emitted when a logger is present; the slot is forwarded to the
wrapped pusher unconditionally.  Returns the updated decorator state, the
slot as forwarded, and the emitted event if any. -/
def LogPusher.push [Container C] (lp : LogPusher T C) (pair : Option (Message T C)) :
    LogPusher T C × Option (Message T C) × Option MessagesEvent :=
  match pair with
  | some bundle =>
      let counter := lp.counter + 1
      let bundle := { bundle with seq := counter - 1, «from» := lp.source }
      let ev : Option MessagesEvent := lp.logging.map fun _ =>
        { is_send := true
          channel := lp.channel
          source := lp.source
          target := lp.target
          seq_no := counter - 1
          length := Container.len bundle.data }
      ({ lp with counter := counter, pusher := lp.pusher ++ [some bundle] }, some bundle, ev)
  | none =>
      ({ lp with pusher := lp.pusher ++ [none] }, none, none)

/-- State of the `LogPuller<T, C, P>` decorator.  The wrapped endpoint
`puller` is modelled by the queue of slots it will yield; an empty queue
means the underlying pull returns an empty slot. -/
structure LogPuller (T C : Type) where
  puller : List (Option (Message T C))
  channel : Nat
  index : Nat
  logging : Option TimelyLogger
  deriving DecidableEq

/-- `LogPuller::new` (pact.rs:171-179). -/
def LogPuller.new (puller : List (Option (Message T C))) (index channel : Nat)
    (logging : Option TimelyLogger) : LogPuller T C :=
  { puller := puller
    channel := channel
    index := index
    logging := logging }

/-- `LogPuller::pull` (pact.rs:182-204).  Delegates to the wrapped puller;
if the obtained slot holds a message and a logger is present, an event is
emitted; the slot is returned unchanged.  Returns the updated state, the
returned slot, and the emitted event if any. -/
def LogPuller.pull [Container C] (lp : LogPuller T C) :
    LogPuller T C × Option (Message T C) × Option MessagesEvent :=
  match lp.puller with
  | [] => (lp, none, none)
  | result :: rest =>
      let ev : Option MessagesEvent :=
        match result with
        | some bundle => lp.logging.map fun _ =>
            { is_send := false
              channel := lp.channel
              source := bundle.«from»
              target := lp.index
              seq_no := bundle.seq
              length := Container.len bundle.data }
        | none => none
      ({ lp with puller := rest }, result, ev)

/-- The `Pipeline` parallelization contract (pact.rs:35). -/
structure Pipeline

/-- `Pipeline::connect` (pact.rs:40-44): requests a fresh thread-local
channel pair from the allocator (here: empty trace and empty queue) and
wraps both ends, with source, target and puller index all equal to the
worker's own index. -/
def Pipeline.connect (T C : Type) (index identifier : Nat)
    (logging : Option TimelyLogger) : LogPusher T C × LogPuller T C :=
  (LogPusher.new [] index index identifier logging,
   LogPuller.new [] index identifier logging)

/-- The `ExchangeCore` parallelization contract (pact.rs:48): carries the
per-record distribution function (`u64` keys modelled as `Nat`). -/
structure ExchangeCore (D : Type) where
  hash_func : D → Nat

/-- `ExchangeCore::new_core` (pact.rs:59-64). -/
def ExchangeCore.new_core (f : D → Nat) : ExchangeCore D :=
  { hash_func := f }

/-- Modelled from the spec: the external fan-out pusher
(`dataflow::channels::pushers::Exchange`, not part of the given sources)
holds one instrumented send endpoint per destination worker along with the
distribution function. -/
structure ExchangePusher (T D : Type) where
  pushers : List (LogPusher T (List D))
  hash_func : D → Nat

/-- Modelled from the spec: construction of the external fan-out pusher
from the per-destination endpoints and the distribution function. -/
def ExchangePusher.new (senders : List (LogPusher T (List D))) (f : D → Nat) :
    ExchangePusher T D :=
  { pushers := senders, hash_func := f }

/-- Modelled from the spec: for a pushed batch the fan-out component
partitions records by `hash(record) mod worker_count` and forwards each
partition, as a new message envelope, into the matching send endpoint.
`pushPartitions f W m i ps` feeds the endpoints `ps`, the first of which
addresses worker `i`. -/
def pushPartitions (f : D → Nat) (W : Nat) (m : Message T (List D)) :
    Nat → List (LogPusher T (List D)) → List (LogPusher T (List D))
  | _, [] => []
  | i, lp :: rest =>
      (lp.push (some { m with data := m.data.filter fun d => f d % W == i })).1 ::
        pushPartitions f W m (i + 1) rest

/-- Modelled from the spec: one push into the fan-out component.  A held
batch is partitioned across all endpoints; an empty slot is a flush signal
forwarded to every endpoint. -/
def ExchangePusher.push (ep : ExchangePusher T D) (pair : Option (Message T (List D))) :
    ExchangePusher T D :=
  match pair with
  | some m => { ep with pushers := pushPartitions ep.hash_func ep.pushers.length m 0 ep.pushers }
  | none => { ep with pushers := ep.pushers.map fun lp => (lp.push none).1 }

/-- `ExchangeCore::connect` (pact.rs:92-96): requests one raw sender per
worker plus one receiver from the allocator, wraps the `i`-th sender with
target `i` and source the worker's own index, hands the wrapped senders and
the distribution function to the fan-out pusher, and wraps the receiver
once with the worker's own index. -/
def ExchangeCore.connect (ec : ExchangeCore D) (T : Type) (peers index identifier : Nat)
    (logging : Option TimelyLogger) : ExchangePusher T D × LogPuller T (List D) :=
  let senders := (List.range peers).map fun i => LogPusher.new [] index i identifier logging
  (ExchangePusher.new senders ec.hash_func,
   LogPuller.new [] index identifier logging)

/-- Pushing a sequence of slots through a `LogPusher`, left to right. -/
def LogPusher.pushAll [Container C] (lp : LogPusher T C) :
    List (Option (Message T C)) → LogPusher T C
  | [] => lp
  | s :: rest => ((lp.push s).1).pushAll rest

/-- Pushing a sequence of slots through the fan-out pusher, left to right. -/
def ExchangePusher.pushAll (ep : ExchangePusher T D) :
    List (Option (Message T (List D))) → ExchangePusher T D
  | [] => ep
  | s :: rest => (ep.push s).pushAll rest

/-- Record count a slot contributes at logical timestamp `t`. -/
def slotRecords [Container C] [DecidableEq T] (t : T) : Option (Message T C) → Nat
  | some m => if m.time = t then Container.len m.data else 0
  | none => 0

/-- Total record count at timestamp `t` over a list of slots. -/
def recordsAt [Container C] [DecidableEq T] (t : T)
    (slots : List (Option (Message T C))) : Nat :=
  (slots.map (slotRecords t)).sum

/-- Total record count at timestamp `t` forwarded across all of the
fan-out pusher's destination endpoints. -/
def ExchangePusher.receivedAt [DecidableEq T] (ep : ExchangePusher T D) (t : T) : Nat :=
  (ep.pushers.map fun lp => recordsAt t lp.pusher).sum

/-- The `seq` values carried by the occupied slots of a trace, in order. -/
def stampedSeqs (slots : List (Option (Message T C))) : List Nat :=
  slots.filterMap fun s => s.map Message.seq

/-! ## Helper lemmas -/

theorem len_list {D : Type} (l : List D) : Container.len l = l.length := rfl

theorem stampedSeqs_append (a b : List (Option (Message T C))) :
    stampedSeqs (a ++ b) = stampedSeqs a ++ stampedSeqs b := by
  simp [stampedSeqs]

/-- Pushing a slot sequence appends, to the forwarded trace, stamped
sequence numbers counting up from the current counter, one per occupied
slot. -/
theorem pushAll_stampedSeqs [Container C] :
    ∀ (slots : List (Option (Message T C))) (lp : LogPusher T C),
      stampedSeqs ((lp.pushAll slots).pusher)
        = stampedSeqs lp.pusher ++ List.range' lp.counter (slots.countP Option.isSome)
  | [], lp => by simp [LogPusher.pushAll, stampedSeqs]
  | s :: rest, lp => by
      rw [LogPusher.pushAll, pushAll_stampedSeqs rest]
      cases s with
      | none =>
          simp [LogPusher.push, stampedSeqs_append, stampedSeqs, List.countP_cons]
      | some b =>
          simp only [LogPusher.push, stampedSeqs_append, List.countP_cons, Option.isSome_some,
            if_pos, List.append_assoc]
          simp [stampedSeqs]
          rw [List.range'_succ]

theorem recordsAt_append [Container C] [DecidableEq T] (t : T)
    (a b : List (Option (Message T C))) :
    recordsAt t (a ++ b) = recordsAt t a + recordsAt t b := by
  simp [recordsAt]

/-- Pushing a slot sequence through a `LogPusher` forwards exactly the
records pushed, at their timestamps. -/
theorem pushAll_recordsAt [Container C] [DecidableEq T] (t : T) :
    ∀ (slots : List (Option (Message T C))) (lp : LogPusher T C),
      recordsAt t ((lp.pushAll slots).pusher)
        = recordsAt t lp.pusher + recordsAt t slots
  | [], lp => by simp [LogPusher.pushAll, recordsAt]
  | s :: rest, lp => by
      rw [LogPusher.pushAll, pushAll_recordsAt t rest]
      cases s with
      | none =>
          simp [LogPusher.push, recordsAt_append, recordsAt, slotRecords]
      | some b =>
          simp [LogPusher.push, recordsAt_append, recordsAt, slotRecords]
          omega

/-- Summing an equality indicator over a contiguous range yields `1`
exactly when the value lies in the range. -/
theorem sum_range'_indicator (x : Nat) :
    ∀ (n i : Nat), ((List.range' i n).map fun j => if x == j then 1 else 0).sum
      = if i ≤ x ∧ x < i + n then 1 else 0
  | 0, i => by
      simp only [List.range', List.map_nil, List.sum_nil]
      split_ifs with h
      · omega
      · rfl
  | n + 1, i => by
      rw [List.range'_succ]
      simp only [List.map_cons, List.sum_cons]
      rw [sum_range'_indicator x n (i + 1)]
      simp only [beq_iff_eq]
      split_ifs <;> omega

/-- Partitioning a record list by residue modulo `W` over all residues
conserves the total record count. -/
theorem sum_filter_mod (f : D → Nat) (W : Nat) (hW : 0 < W) :
    ∀ ds : List D,
      ((List.range' 0 W).map fun j => (ds.filter fun d => f d % W == j).length).sum = ds.length
  | [] => by simp
  | d :: ds => by
      have hpt : ∀ j : Nat, ((d :: ds).filter fun x => f x % W == j).length
          = (if f d % W == j then 1 else 0) + (ds.filter fun x => f x % W == j).length := by
        intro j
        rw [List.filter_cons]
        split_ifs <;> simp [Nat.add_comm]
      simp only [hpt, List.sum_map_add, sum_range'_indicator (f d % W) W 0,
        sum_filter_mod f W hW ds]
      rw [if_pos ⟨Nat.zero_le _, by simpa using Nat.mod_lt (f d) hW⟩]
      simp [Nat.add_comm]

theorem pushPartitions_length (f : D → Nat) (W : Nat) (m : Message T (List D)) :
    ∀ (i : Nat) (ps : List (LogPusher T (List D))),
      (pushPartitions f W m i ps).length = ps.length
  | _, [] => rfl
  | i, lp :: rest => by
      rw [pushPartitions]
      simp [pushPartitions_length f W m (i + 1) rest]

/-- Feeding one batch through the fan-out recursion adds, per destination,
exactly its partition's record count at the batch's timestamp. -/
theorem pushPartitions_receivedAt [DecidableEq T] (f : D → Nat) (W : Nat)
    (m : Message T (List D)) (t : T) :
    ∀ (i : Nat) (ps : List (LogPusher T (List D))),
      ((pushPartitions f W m i ps).map fun lp => recordsAt t lp.pusher).sum
        = ((ps.map fun lp => recordsAt t lp.pusher).sum)
          + (if m.time = t
             then ((List.range' i ps.length).map fun j =>
                    (m.data.filter fun d => f d % W == j).length).sum
             else 0)
  | i, [] => by simp [pushPartitions]
  | i, lp :: rest => by
      rw [pushPartitions]
      simp only [List.map_cons, List.sum_cons, pushPartitions_receivedAt f W m t (i + 1) rest,
        List.length_cons, List.range'_succ, LogPusher.push, recordsAt_append]
      simp only [recordsAt, slotRecords, List.map_cons, List.sum_cons, List.map_nil,
        List.sum_nil, len_list]
      split_ifs <;> omega

theorem ExchangePusher.push_length (ep : ExchangePusher T D)
    (s : Option (Message T (List D))) :
    (ep.push s).pushers.length = ep.pushers.length := by
  cases s <;> simp [ExchangePusher.push, pushPartitions_length]

/-- One push into the fan-out component adds exactly the pushed slot's
record count at each timestamp, summed over all destinations. -/
theorem ExchangePusher.push_receivedAt [DecidableEq T] (ep : ExchangePusher T D)
    (hW : 0 < ep.pushers.length) (s : Option (Message T (List D))) (t : T) :
    (ep.push s).receivedAt t = ep.receivedAt t + slotRecords t s := by
  cases s with
  | none =>
      simp [ExchangePusher.push, ExchangePusher.receivedAt, List.map_map, Function.comp_def,
        LogPusher.push, recordsAt_append, recordsAt, slotRecords]
  | some m =>
      show ((pushPartitions ep.hash_func ep.pushers.length m 0 ep.pushers).map
          fun lp => recordsAt t lp.pusher).sum = _
      rw [pushPartitions_receivedAt]
      by_cases h : m.time = t
      · rw [if_pos h, sum_filter_mod ep.hash_func ep.pushers.length hW m.data]
        simp [ExchangePusher.receivedAt, slotRecords, h, len_list]
      · rw [if_neg h]
        simp [ExchangePusher.receivedAt, slotRecords, h]

/-- Pushing a slot sequence through the fan-out component forwards exactly
the records pushed, at their timestamps, summed over all destinations. -/
theorem ExchangePusher.pushAll_receivedAt [DecidableEq T] (t : T) :
    ∀ (slots : List (Option (Message T (List D)))) (ep : ExchangePusher T D),
      0 < ep.pushers.length →
      (ep.pushAll slots).receivedAt t = ep.receivedAt t + recordsAt t slots
  | [], ep, _ => by simp [ExchangePusher.pushAll, recordsAt]
  | s :: rest, ep, h => by
      rw [ExchangePusher.pushAll,
        ExchangePusher.pushAll_receivedAt t rest _ (by rw [ExchangePusher.push_length]; exact h),
        ExchangePusher.push_receivedAt ep h s t]
      simp [recordsAt]
      omega

/-! ## Claim theorems -/

/-- Claim C1: for every parallelization contract (Pipeline or Exchange) and
every sequence of pushed slots, the total record count at a given logical
timestamp summed over all receive endpoints equals the total record count
pushed at that timestamp: no contract alters the number of records at each
time. -/
theorem C1_conservation [Container C] [DecidableEq T] :
    (∀ (index identifier : Nat) (lg : Option TimelyLogger)
        (slots : List (Option (Message T C))) (t : T),
        recordsAt t (((Pipeline.connect T C index identifier lg).1.pushAll slots).pusher)
          = recordsAt t slots)
    ∧ (∀ (peers : Nat), 0 < peers →
        ∀ (f : D → Nat) (index identifier : Nat) (lg : Option TimelyLogger)
          (slots : List (Option (Message T (List D)))) (t : T),
        (((ExchangeCore.new_core f).connect T peers index identifier lg).1.pushAll
            slots).receivedAt t
          = recordsAt t slots) := by
  constructor
  · intro index identifier lg slots t
    rw [pushAll_recordsAt]
    simp [Pipeline.connect, LogPusher.new, recordsAt]
  · intro peers hp f index identifier lg slots t
    rw [ExchangePusher.pushAll_receivedAt]
    · simp [ExchangeCore.connect, ExchangePusher.new, ExchangePusher.receivedAt,
        LogPusher.new, recordsAt, List.map_map, Function.comp_def]
    · simpa [ExchangeCore.connect, ExchangePusher.new] using hp

/-- Concrete instantiation of claim C1: two workers, identity hash, one
batch of four records at timestamp 0. -/
theorem C1_conservation_witness :
    0 < 2 ∧ (((ExchangeCore.new_core fun d => d).connect Nat 2 0 7 none).1.pushAll
        [some { time := 0, data := [0, 1, 2, 3], seq := 0, «from» := 0 }]).receivedAt 0
      = recordsAt 0 [some ({ time := 0, data := [0, 1, 2, 3], seq := 0, «from» := 0 }
          : Message Nat (List Nat))] :=
  ⟨by decide, (C1_conservation (C := List Nat)).2 2 (by decide) (fun d => d) 0 7 none
    [some { time := 0, data := [0, 1, 2, 3], seq := 0, «from» := 0 }] 0⟩

/-- Claim C2: `LogPusher::push` on an occupied slot increments the counter,
stamps the message's `seq` with the pre-increment counter value and `from`
with the source worker, and, exactly when a logger is configured, emits one
event with `is_send = true`, the pusher's channel, source, target, the
stamped `seq`, and the container's record count. -/
theorem C2_push_spec [Container C] (lp : LogPusher T C) (b : Message T C) :
    (lp.push (some b)).1.counter = lp.counter + 1
    ∧ (lp.push (some b)).2.1
        = some { b with seq := lp.counter + 1 - 1, «from» := lp.source }
    ∧ (lp.push (some b)).2.2 = lp.logging.map fun _ =>
        { is_send := true
          channel := lp.channel
          source := lp.source
          target := lp.target
          seq_no := lp.counter + 1 - 1
          length := Container.len b.data } :=
  ⟨rfl, rfl, rfl⟩

/-- Claim C3: from construction (counter 0), the `seq` values stamped on
the successive occupied pushes of a `LogPusher` are exactly `0, 1, 2, …`,
with no gaps and no repeats. -/
theorem C3_seq_monotonic [Container C] (source target channel : Nat)
    (lg : Option TimelyLogger) (slots : List (Option (Message T C))) :
    stampedSeqs (((LogPusher.new [] source target channel lg).pushAll slots).pusher)
      = List.range (slots.countP Option.isSome) := by
  rw [pushAll_stampedSeqs]
  simp [stampedSeqs, LogPusher.new, List.range_eq_range']

/-- Claim C4: every push forwards the slot to the wrapped pusher, occupied
or not; an empty slot is forwarded untouched, with no stamping, no counter
change and no event. -/
theorem C4_forward_slot [Container C] (lp : LogPusher T C) (s : Option (Message T C)) :
    (lp.push s).1.pusher = lp.pusher ++ [(lp.push s).2.1]
    ∧ lp.push none = ({ lp with pusher := lp.pusher ++ [none] }, none, none) := by
  refine ⟨?_, rfl⟩
  cases s <;> rfl

/-- Claim C5: `LogPuller::pull` returns the slot obtained from the wrapped
puller; when it holds a message and a logger is configured exactly one
event is emitted with `is_send = false`, the puller's channel, the
message's `from` as source, the puller's index as target, the message's
`seq`, and the container's record count; an empty slot yields no event. -/
theorem C5_pull_spec [Container C] (q : List (Option (Message T C))) (b : Message T C)
    (ch idx : Nat) (lg : Option TimelyLogger) :
    (∀ lp : LogPuller T C, lp.pull.2.1 = lp.puller.headD none)
    ∧ (LogPuller.mk (some b :: q) ch idx (some ())).pull
        = ({ puller := q, channel := ch, index := idx, logging := some () },
           some b,
           some { is_send := false
                  channel := ch
                  source := b.«from»
                  target := idx
                  seq_no := b.seq
                  length := Container.len b.data })
    ∧ (LogPuller.mk (none :: q) ch idx lg).pull.2.2 = none
    ∧ (LogPuller.mk ([] : List (Option (Message T C))) ch idx lg).pull.2.2 = none := by
  refine ⟨?_, rfl, rfl, rfl⟩
  intro lp
  rcases lp with ⟨pq, pch, pidx, plg⟩
  cases pq <;> rfl

/-- Claim C6: the decorators never alter the payload: push modifies only
`seq` and `from`, keeping `time` and `data` unchanged, and pull returns
exactly the slot obtained from the wrapped puller, unchanged. -/
theorem C6_payload_frame [Container C] (lp : LogPusher T C) (b : Message T C) :
    (lp.push (some b)).2.1 = some { b with seq := lp.counter, «from» := lp.source }
    ∧ (lp.push (some b)).2.1.map Message.time = some b.time
    ∧ (lp.push (some b)).2.1.map Message.data = some b.data
    ∧ (∀ pl : LogPuller T C, pl.pull.2.1 = pl.puller.headD none) := by
  refine ⟨rfl, rfl, rfl, ?_⟩
  intro pl
  rcases pl with ⟨pq, pch, pidx, plg⟩
  cases pq <;> rfl

/-- Claim C7: `ExchangeCore::connect` wraps the `i`-th sender with target
`i` and source the current worker's index, for every worker `i` including
the current worker itself, and wraps the single receiver exactly once with
the current worker's index. -/
theorem C7_exchange_connect (ec : ExchangeCore D) (T : Type)
    (peers index identifier : Nat) (lg : Option TimelyLogger) :
    ((ec.connect T peers index identifier lg).1.pushers.map LogPusher.target
        = List.range peers)
    ∧ ((ec.connect T peers index identifier lg).1.pushers.map LogPusher.source
        = List.replicate peers index)
    ∧ ((ec.connect T peers index identifier lg).1.pushers.length = peers)
    ∧ ((ec.connect T peers index identifier lg).2
        = LogPuller.new [] index identifier lg)
    ∧ ((ec.connect T peers index identifier lg).2.index = index) := by
  refine ⟨?_, ?_, ?_, rfl, rfl⟩ <;>
    simp [ExchangeCore.connect, ExchangePusher.new, LogPusher.new, List.map_map,
      Function.comp_def, List.map_const']

/-- Claim C8: `Pipeline::connect` wraps both endpoints with source, target
and puller index all equal to the current worker's index. -/
theorem C8_pipeline_connect (T C : Type) (index identifier : Nat)
    (lg : Option TimelyLogger) :
    (Pipeline.connect T C index identifier lg).1.source = index
    ∧ (Pipeline.connect T C index identifier lg).1.target = index
    ∧ (Pipeline.connect T C index identifier lg).2.index = index :=
  ⟨rfl, rfl, rfl⟩

/-- Claim C9: with no logger configured, push and pull emit no events but
otherwise behave identically: push still increments the counter, stamps and
forwards, and pull still returns the underlying slot unchanged. -/
theorem C9_no_logger [Container C] :
    (∀ (lp : LogPusher T C) (s : Option (Message T C)),
        ({ lp with logging := none } : LogPusher T C).push s
          = ({ (lp.push s).1 with logging := none }, (lp.push s).2.1, none))
    ∧ (∀ pl : LogPuller T C,
        ({ pl with logging := none } : LogPuller T C).pull
          = ({ pl.pull.1 with logging := none }, pl.pull.2.1, none)) := by
  constructor
  · intro lp s
    cases s <;> rfl
  · intro pl
    rcases pl with ⟨pq, pch, pidx, plg⟩
    cases pq with
    | nil => rfl
    | cons r rest => cases r <;> rfl

/-- Claim C10: an occupied push overwrites `seq` and `from` regardless of
the values they already held; a message pushed through two `LogPusher`
instances in succession carries only the second pusher's stamps. -/
theorem C10_overwrite [Container C] (lp lp1 lp2 : LogPusher T C) (b : Message T C)
    (s f : Nat) :
    (lp.push (some { b with seq := s, «from» := f })).2.1
        = some { b with seq := lp.counter, «from» := lp.source }
    ∧ (lp2.push ((lp1.push (some b)).2.1)).2.1
        = some { b with seq := lp2.counter, «from» := lp2.source } :=
  ⟨rfl, rfl⟩

end Timely
